import Mathlib

/-!
Shallow embedding of `src/bytestream.c` (a fixed-capacity ring-buffer byte
stream) and proofs about it.

Modelling conventions:
* All machine integers of the C code are `unsigned int` (32 bit); they are
  modelled as `Nat`.  An explicit `% 2 ^ 32` reduction appears exactly at the
  places where, for the states and arguments a theorem speaks about, the C
  expression can exceed the 32-bit range: the padded allocation size computed
  by `bstm_new`, and the expressions `offs + size` and `head_idx + offs`
  inside `bstm_peek` (whose operands are only bounded by the type there).
  All remaining sums are evaluated only in branches where the ring-buffer
  invariant bounds them below `2 ^ 32`, so the plain `Nat` value coincides
  with the machine value.
* `malloc` is environmental; the model takes the allocation-succeeds branch,
  so `bstm_new` always produces a context.
* Byte buffers are `List Nat`; a `memcpy` into the ring becomes
  `memcpyInto`, which splices the source list over the target positions
  (and, like the C `memcpy`, changes the length of nothing as long as the
  copy stays inside the target - an out-of-range copy is visible in the
  model as a length change).
* `NULL` destination pointers ("discard" mode of `bstm_read` /
  `bstm_readline`) are a `Bool` flag `data`; the bytes the C code would
  copy out are returned as a `List Nat` (empty in discard mode).
-/

namespace Bytestream

set_option maxHeartbeats 1000000

/-- The u32 modulus. -/
def U32 : Nat := 2 ^ 32

/-- Result codes of the API (`bstm_res_t` plus the readline/peek codes used
by `bytestream.c`). -/
inductive BstmRes where
  | OK
  | ERR
  | ERR_NO_MEM
  | ERR_NO_SPA
  | ERR_NO_DAT
  | ERR_BAD_SIZE
  | ERR_NO_EOL
  | ERR_BAD_OFFS
  deriving DecidableEq

/-- The context `bstm_ctx_t`: ring buffer, head/tail indices, configured
capacity (`conf.cap_size`) and the cached counters (`cache.free_size`,
`cache.used_size`). -/
structure BstmCtx where
  ring_buff : List Nat
  head_idx : Nat
  tail_idx : Nat
  cap_size : Nat
  free_size : Nat
  used_size : Nat
  deriving DecidableEq

/-- `memcpy(buf + idx, src, src.length)`: splice `src` over the positions
`[idx, idx + src.length)` of `buf`. -/
def memcpyInto (buf : List Nat) (idx : Nat) (src : List Nat) : List Nat :=
  buf.take idx ++ src ++ buf.drop (idx + src.length)

/-- `BSTM_DEF_CAP_SIZE`. -/
def BSTM_DEF_CAP_SIZE : Nat := 1024

/-- The padded allocation size of `bstm_new`:
`buff_size = ((cap_size >> 3) + 1) << 3`, computed in u32 arithmetic. -/
def buffSizeOf (cap_size : Nat) : Nat :=
  (((cap_size >>> 3) + 1) <<< 3) % U32

/-- `bstm_new`.  The argument mirrors the `conf` pointer: `none` means
`conf == NULL`, making the default capacity apply.  Allocation is modelled
as succeeding, hence the result code is the one of the successful path. -/
def bstm_new (conf : Option Nat) : BstmRes × BstmCtx :=
  let cap_size := match conf with
    | some c => c
    | none => BSTM_DEF_CAP_SIZE
  let buff_size := buffSizeOf cap_size
  (BstmRes.OK,
   { ring_buff := List.replicate buff_size 0
     head_idx := 0
     tail_idx := 0
     cap_size := cap_size
     free_size := cap_size
     used_size := 0 })

/-- `bstm_write`. -/
def bstm_write (ctx : BstmCtx) (data : List Nat) : BstmRes × BstmCtx :=
  let size := data.length
  if size = 0 then (BstmRes.OK, ctx)
  else if ctx.free_size < size then (BstmRes.ERR_NO_SPA, ctx)
  else if size ≤ ctx.cap_size + 1 - ctx.tail_idx then
    (BstmRes.OK,
     { ctx with
         ring_buff := memcpyInto ctx.ring_buff ctx.tail_idx data
         tail_idx := (ctx.tail_idx + size) % (ctx.cap_size + 1)
         used_size := ctx.used_size + size
         free_size := ctx.free_size - size })
  else
    let first_copy_size := ctx.cap_size + 1 - ctx.tail_idx
    let second_copy_size := size - first_copy_size
    (BstmRes.OK,
     { ctx with
         ring_buff :=
           memcpyInto (memcpyInto ctx.ring_buff ctx.tail_idx (data.take first_copy_size))
             0 (data.drop first_copy_size)
         tail_idx := second_copy_size
         used_size := ctx.used_size + size
         free_size := ctx.free_size - size })

/-- `bstm_read`.  `data = false` is the `NULL`-destination discard mode; the
third component is the content of the destination buffer after the call. -/
def bstm_read (ctx : BstmCtx) (data : Bool) (size : Nat) :
    BstmRes × BstmCtx × List Nat :=
  if size = 0 then (BstmRes.OK, ctx, [])
  else if ctx.used_size < size then (BstmRes.ERR_NO_DAT, ctx, [])
  else if size ≤ ctx.cap_size + 1 - ctx.head_idx then
    (BstmRes.OK,
     { ctx with
         head_idx := (ctx.head_idx + size) % (ctx.cap_size + 1)
         used_size := ctx.used_size - size
         free_size := ctx.free_size + size },
     if data then (ctx.ring_buff.drop ctx.head_idx).take size else [])
  else
    let first_copy_size := ctx.cap_size + 1 - ctx.head_idx
    let second_copy_size := size - first_copy_size
    (BstmRes.OK,
     { ctx with
         head_idx := second_copy_size
         used_size := ctx.used_size - size
         free_size := ctx.free_size + size },
     if data then
       (ctx.ring_buff.drop ctx.head_idx).take first_copy_size ++
         ctx.ring_buff.take second_copy_size
     else [])

/-- EOL kinds (`eol_t`). -/
inductive Eol where
  | NONE
  | CR
  | LF
  | CRLF
  deriving DecidableEq

/-- The scanning loop of `find_eol`; `consumed` is `size - rest_size`.
Returns the EOL kind and the line length `*len`. -/
def find_eol_aux : List Nat → Nat → Eol × Nat
  | [], _ => (Eol.NONE, 0)
  | b :: rest, consumed =>
    if b = 13 then
      match rest with
      | b2 :: _ => if b2 = 10 then (Eol.CRLF, consumed + 2) else (Eol.CR, consumed + 1)
      | [] => (Eol.CR, consumed + 1)
    else if b = 10 then (Eol.LF, consumed + 1)
    else find_eol_aux rest (consumed + 1)

/-- `find_eol`. -/
def find_eol (data : List Nat) : Eol × Nat := find_eol_aux data 0

/-- `bstm_readline`.  `data`/`len` mirror the two nullable pointers.  Result:
code, updated context, content of the destination buffer, value stored to
`*len`.  The inner `Except` mirrors the early `return`s of the scan part,
after which the common tail (lines 417-425 of the C file) runs. -/
def bstm_readline (ctx : BstmCtx) (data : Bool) (size : Nat) (len : Bool) :
    BstmRes × BstmCtx × List Nat × Option Nat :=
  if data = false ∧ len = false then (BstmRes.ERR, ctx, [], none)
  else if size = 0 then (BstmRes.ERR_BAD_SIZE, ctx, [], none)
  else if ctx.used_size = 0 then (BstmRes.ERR_NO_EOL, ctx, [], none)
  else
    let head_to_buff_end_size := ctx.cap_size + 1 - ctx.head_idx
    let scanres : Except BstmRes (BstmCtx × List Nat × Nat) :=
      if ctx.used_size ≤ head_to_buff_end_size then
        let r := find_eol ((ctx.ring_buff.drop ctx.head_idx).take ctx.used_size)
        if r.1 = Eol.NONE then Except.error BstmRes.ERR_NO_EOL
        else if r.2 > size then Except.error BstmRes.ERR_BAD_SIZE
        else Except.ok
          (if data then
            { ctx with head_idx := (ctx.head_idx + r.2) % (ctx.cap_size + 1) }
           else ctx,
           if data then (ctx.ring_buff.drop ctx.head_idx).take r.2 else [],
           r.2)
      else
        let buff_1st_part_size := head_to_buff_end_size
        let buff_2nd_part_size := ctx.tail_idx
        let r := find_eol ((ctx.ring_buff.drop ctx.head_idx).take buff_1st_part_size)
        if r.1 = Eol.NONE then
          let r2 := find_eol (ctx.ring_buff.take buff_2nd_part_size)
          if r2.1 = Eol.NONE then Except.error BstmRes.ERR_NO_EOL
          else Except.ok
            (if data then { ctx with head_idx := r2.2 } else ctx,
             if data then
               (ctx.ring_buff.drop ctx.head_idx).take buff_1st_part_size ++
                 ctx.ring_buff.take r2.2
             else [],
             buff_1st_part_size + r2.2)
        else if r.1 = Eol.CR ∧ r.2 = buff_1st_part_size then
          if ctx.ring_buff.getD 0 0 = 10 then
            let line_size := r.2 + 1
            if line_size > size then Except.error BstmRes.ERR_BAD_SIZE
            else Except.ok
              (if data then { ctx with head_idx := 1 } else ctx,
               if data then
                 (ctx.ring_buff.drop ctx.head_idx).take buff_1st_part_size ++ [10]
               else [],
               line_size)
          else
            if r.2 > size then Except.error BstmRes.ERR_BAD_SIZE
            else Except.ok
              (if data then
                { ctx with head_idx := (ctx.head_idx + r.2) % (ctx.cap_size + 1) }
               else ctx,
               if data then (ctx.ring_buff.drop ctx.head_idx).take r.2 else [],
               r.2)
        else
          if r.2 > size then Except.error BstmRes.ERR_BAD_SIZE
          else Except.ok
            (if data then
              { ctx with head_idx := (ctx.head_idx + r.2) % (ctx.cap_size + 1) }
             else ctx,
             if data then (ctx.ring_buff.drop ctx.head_idx).take r.2 else [],
             r.2)
    match scanres with
    | Except.error e => (e, ctx, [], none)
    | Except.ok (ctx1, out, line_size) =>
      (BstmRes.OK,
       if data then
         { ctx1 with
             used_size := ctx1.used_size - line_size
             free_size := ctx1.free_size + line_size }
       else ctx1,
       out,
       if len then some line_size else none)

/-- `bstm_peek`.  The `% U32` reductions make the u32 wraparound of
`offs + size` and `head_idx + offs` explicit; see the header comment. -/
def bstm_peek (ctx : BstmCtx) (offs size : Nat) : BstmRes × BstmCtx × List Nat :=
  if ctx.used_size ≤ offs then (BstmRes.ERR_BAD_OFFS, ctx, [])
  else if size = 0 then (BstmRes.OK, ctx, [])
  else if ctx.used_size < (offs + size) % U32 then (BstmRes.ERR_NO_DAT, ctx, [])
  else
    let temp_head_idx := ((ctx.head_idx + offs) % U32) % (ctx.cap_size + 1)
    if size ≤ ctx.cap_size + 1 - temp_head_idx then
      (BstmRes.OK, ctx, (ctx.ring_buff.drop temp_head_idx).take size)
    else
      let first_copy_size := ctx.cap_size + 1 - temp_head_idx
      let second_copy_size := size - first_copy_size
      (BstmRes.OK, ctx,
       (ctx.ring_buff.drop temp_head_idx).take first_copy_size ++
         ctx.ring_buff.take second_copy_size)

/-- `bstm_clear`. -/
def bstm_clear (ctx : BstmCtx) : BstmRes × BstmCtx :=
  (BstmRes.OK,
   { ctx with
       head_idx := 0
       tail_idx := 0
       free_size := ctx.cap_size
       used_size := 0 })

/-- The ring-buffer invariant that `bstm_new` establishes and the operations
preserve.  `cap_size ≤ 2 ^ 32 - 9` is the documented bound keeping the
padded allocation size inside u32. -/
abbrev WF (ctx : BstmCtx) : Prop :=
  ctx.cap_size ≤ U32 - 9 ∧
  ctx.ring_buff.length = buffSizeOf ctx.cap_size ∧
  ctx.head_idx < ctx.cap_size + 1 ∧
  ctx.tail_idx = (ctx.head_idx + ctx.used_size) % (ctx.cap_size + 1) ∧
  ctx.used_size ≤ ctx.cap_size ∧
  ctx.free_size = ctx.cap_size - ctx.used_size

/-- The logical FIFO content of the buffer: the `used_size` bytes starting
at `head_idx`, read with the ring modulus `cap_size + 1`. -/
def queueOf (ctx : BstmCtx) : List Nat :=
  (List.range ctx.used_size).map
    (fun i => ctx.ring_buff.getD ((ctx.head_idx + i) % (ctx.cap_size + 1)) 0)

/-- A client operation: `bstm_write` of the given bytes, or `bstm_read` of
the given count into a provided destination. -/
inductive StreamOp where
  | wr : List Nat → StreamOp
  | rd : Nat → StreamOp
  deriving DecidableEq

/-- Run a sequence of operations through the implementation, collecting the
bytes delivered by each read; `none` as soon as one call does not return
`BSTM_OK`. -/
def runImpl : BstmCtx → List StreamOp → Option (BstmCtx × List (List Nat))
  | ctx, [] => some (ctx, [])
  | ctx, StreamOp.wr d :: ops =>
    match bstm_write ctx d with
    | (BstmRes.OK, ctx1) => runImpl ctx1 ops
    | _ => none
  | ctx, StreamOp.rd n :: ops =>
    match bstm_read ctx true n with
    | (BstmRes.OK, ctx1, out) =>
      (runImpl ctx1 ops).map (fun p => (p.1, out :: p.2))
    | _ => none

/-- The ideal capacity-bounded FIFO queue: a write appends when it fits in
the remaining space, a read delivers and removes the oldest `n` bytes when
that many are buffered. -/
def runSpec (cap : Nat) : List Nat → List StreamOp → Option (List Nat × List (List Nat))
  | q, [] => some (q, [])
  | q, StreamOp.wr d :: ops =>
    if cap - q.length < d.length then none
    else runSpec cap (q ++ d) ops
  | q, StreamOp.rd n :: ops =>
    if q.length < n then none
    else (runSpec cap (q.drop n) ops).map (fun p => (p.1, q.take n :: p.2))

/-! ### Concrete states used by counterexamples and witnesses -/

/-- Capacity 5; after writing `"ABCDE"`, discarding 4 bytes and writing
`"FG\nH"` the buffered bytes `"EFG\nH"` wrap across the physical end
(`head_idx = 4`, ring modulus 6). -/
def c1ctx : BstmCtx :=
  (bstm_write ((bstm_read ((bstm_write (bstm_new (some 5)).2
    [65, 66, 67, 68, 69]).2) false 4).2.1) [70, 71, 10, 72]).2

/-- Capacity 1 (ring modulus 2, allocation 8): one byte written and read
back, so `head_idx = tail_idx = 1`. -/
def c2ctx : BstmCtx :=
  (bstm_read ((bstm_write (bstm_new (some 1)).2 [65]).2) false 1).2.1

/-- A fresh capacity-5 stream. -/
def wfctx5 : BstmCtx := (bstm_new (some 5)).2

/-- Write 8, read 8, write 8, read 8 on a capacity-10 stream: the second
pair crosses the physical end of the 11-byte ring window. -/
def c4ops : List StreamOp :=
  [StreamOp.wr [1, 2, 3, 4, 5, 6, 7, 8], StreamOp.rd 8,
   StreamOp.wr [9, 10, 11, 12, 13, 14, 15, 16], StreamOp.rd 8]

/-- Capacity 5, buffered bytes `"A\rLF"`: `"A"` at index 4, CR at index 5
(the physical end of the ring window), LF at index 0. -/
def c6ctx : BstmCtx :=
  { ring_buff := [10, 0, 0, 0, 65, 13, 0, 0]
    head_idx := 4
    tail_idx := 1
    cap_size := 5
    free_size := 2
    used_size := 3 }

/-- Capacity 2 with 2 buffered bytes. -/
def c7ctx : BstmCtx := (bstm_write (bstm_new (some 2)).2 [65, 66]).2

/-- Capacity 10 holding `"AB\r\nCD"`. -/
def c9ctx : BstmCtx :=
  (bstm_write (bstm_new (some 10)).2 [65, 66, 13, 10, 67, 68]).2

/-- Capacity 5 with 3 buffered bytes (allocation length 8). -/
def c10ctx : BstmCtx := (bstm_write (bstm_new (some 5)).2 [65, 66, 67]).2

/-! ### List access helpers -/

lemma getD_eq (l : List Nat) (i : Nat) : l.getD i 0 = (l[i]?).getD 0 :=
  List.getD_eq_getElem?_getD l i 0

lemma length_memcpyInto (buf : List Nat) (idx : Nat) (src : List Nat)
    (h : idx + src.length ≤ buf.length) :
    (memcpyInto buf idx src).length = buf.length := by
  simp [memcpyInto]; omega

lemma getElem?_memcpyInto_lt (buf : List Nat) (idx : Nat) (src : List Nat) (j : Nat)
    (hj : j < idx) (hb : idx ≤ buf.length) :
    (memcpyInto buf idx src)[j]? = buf[j]? := by
  have hlen : (buf.take idx).length = idx := by simp; omega
  unfold memcpyInto
  rw [List.append_assoc, List.getElem?_append, hlen, if_pos hj, List.getElem?_take, if_pos hj]

lemma getElem?_memcpyInto_mid (buf : List Nat) (idx : Nat) (src : List Nat) (j : Nat)
    (h1 : idx ≤ j) (h2 : j < idx + src.length) (hb : idx ≤ buf.length) :
    (memcpyInto buf idx src)[j]? = src[j - idx]? := by
  have hlen : (buf.take idx).length = idx := by simp; omega
  unfold memcpyInto
  rw [List.append_assoc, List.getElem?_append, hlen, if_neg (by omega),
    List.getElem?_append, if_pos (by omega)]

lemma getElem?_memcpyInto_ge (buf : List Nat) (idx : Nat) (src : List Nat) (j : Nat)
    (h : idx + src.length ≤ j) (hb : idx ≤ buf.length) :
    (memcpyInto buf idx src)[j]? = buf[j]? := by
  have hlen : (buf.take idx).length = idx := by simp; omega
  unfold memcpyInto
  rw [List.append_assoc, List.getElem?_append, hlen, if_neg (by omega),
    List.getElem?_append, if_neg (by omega), List.getElem?_drop]
  congr 1
  omega

lemma drop_take_getElem? (l : List Nat) (s n i : Nat) (hi : i < n) :
    ((l.drop s).take n)[i]? = l[s + i]? := by
  rw [List.getElem?_take, if_pos hi, List.getElem?_drop]

lemma drop_take_length (l : List Nat) (s n : Nat) (h : s + n ≤ l.length) :
    ((l.drop s).take n).length = n := by
  simp; omega

/-- A contiguous chunk of `l` written as an indexed enumeration. -/
lemma drop_take_eq_range_map (l : List Nat) (s n : Nat) (h : s + n ≤ l.length) :
    (l.drop s).take n = (List.range n).map (fun i => l.getD (s + i) 0) := by
  apply List.ext_getElem?
  intro i
  by_cases hi : i < n
  · rw [drop_take_getElem? l s n i hi]
    have hsi : s + i < l.length := by omega
    have hr : (List.range n)[i]? = some i := by
      rw [List.getElem?_eq_getElem (by simpa using hi)]
      simp
    rw [List.getElem?_map, hr]
    simp [List.getElem?_eq_getElem hsi, getD_eq]
  · rw [List.getElem?_eq_none (by rw [drop_take_length l s n h]; omega),
      List.getElem?_eq_none (by simpa using hi)]

/-! ### `find_eol` facts -/

/-- The result length of the scan: `NONE` yields 0, otherwise the length is
positive and at most the scanned size. -/
lemma find_eol_aux_spec (l : List Nat) (c : Nat) :
    (find_eol_aux l c).1 = Eol.NONE ∧ (find_eol_aux l c).2 = 0 ∨
    (find_eol_aux l c).1 ≠ Eol.NONE ∧ c < (find_eol_aux l c).2 ∧
      (find_eol_aux l c).2 ≤ c + l.length := by
  induction l generalizing c with
  | nil => exact Or.inl ⟨rfl, rfl⟩
  | cons b rest ih =>
    by_cases hb : b = 13
    · cases rest with
      | nil => simp [find_eol_aux, hb]
      | cons b2 r2 =>
        by_cases hb2 : b2 = 10 <;> simp [find_eol_aux, hb, hb2]
    · by_cases hb' : b = 10
      · simp [find_eol_aux, hb, hb']
      · have := ih (c + 1)
        simp only [find_eol_aux, if_neg hb, if_neg hb']
        rcases this with ⟨h1, h2⟩ | ⟨h1, h2, h3⟩
        · exact Or.inl ⟨h1, h2⟩
        · refine Or.inr ⟨h1, by omega, by simp; omega⟩

lemma find_eol_spec (l : List Nat) :
    (find_eol l).1 = Eol.NONE ∧ (find_eol l).2 = 0 ∨
    (find_eol l).1 ≠ Eol.NONE ∧ 0 < (find_eol l).2 ∧ (find_eol l).2 ≤ l.length := by
  have := find_eol_aux_spec l 0
  simpa [find_eol] using this

/-- If the scanned data ends in a CR and holds no terminator anywhere before
it, the scan reports a CR line covering the whole data. -/
lemma find_eol_aux_trailing_cr (l : List Nat) (c : Nat) (hne : l ≠ [])
    (hlast : l.getD (l.length - 1) 0 = 13)
    (hclean : ∀ i, i < l.length - 1 → l.getD i 0 ≠ 13 ∧ l.getD i 0 ≠ 10) :
    find_eol_aux l c = (Eol.CR, c + l.length) := by
  induction l generalizing c with
  | nil => exact absurd rfl hne
  | cons b rest ih =>
    cases rest with
    | nil =>
      have hb : b = 13 := by simpa using hlast
      simp [find_eol_aux, hb]
    | cons b2 r2 =>
      have h0 := hclean 0 (by simp)
      have hb : b ≠ 13 := by simpa using h0.1
      have hb' : b ≠ 10 := by simpa using h0.2
      rw [find_eol_aux, if_neg hb, if_neg hb']
      rw [ih (c + 1) (by simp) (by simpa using hlast)
        (fun i hi => by
          have := hclean (i + 1) (by simp at hi ⊢; omega)
          simpa using this)]
      simp
      omega

/-! ### Arithmetic and queue helpers -/

/-- The padded allocation always exceeds the requested capacity, as long as
the capacity respects the documented u32 bound. -/
lemma buffSizeOf_ge (cap : Nat) (h : cap ≤ U32 - 9) : cap + 1 ≤ buffSizeOf cap := by
  unfold buffSizeOf U32 at *
  rw [Nat.shiftRight_eq_div_pow, Nat.shiftLeft_eq]
  norm_num at *
  have hd := Nat.div_add_mod cap 8
  have hm : cap % 8 < 8 := Nat.mod_lt _ (by norm_num)
  have hlt : (cap / 8 + 1) * 8 < 4294967296 := by omega
  rw [Nat.mod_eq_of_lt hlt]
  omega

lemma length_queueOf (ctx : BstmCtx) : (queueOf ctx).length = ctx.used_size := by
  simp [queueOf]

lemma range_map_getElem? (f : Nat → Nat) (n i : Nat) :
    ((List.range n).map f)[i]? = if i < n then some (f i) else none := by
  by_cases hi : i < n
  · rw [if_pos hi, List.getElem?_eq_getElem (by simpa using hi)]
    simp
  · rw [if_neg hi, List.getElem?_eq_none (by simp; omega)]

/-- Splitting `a % m` for `a < 2 * m`. -/
lemma mod_two_cases (a m : Nat) (h : a < 2 * m) :
    a % m = a ∧ a < m ∨ a % m = a - m ∧ m ≤ a := by
  rcases Nat.lt_or_ge a m with h1 | h1
  · exact Or.inl ⟨Nat.mod_eq_of_lt h1, h1⟩
  · refine Or.inr ⟨?_, h1⟩
    rw [Nat.mod_eq_sub_mod h1]
    exact Nat.mod_eq_of_lt (by omega)

/-- Pushing an addend through an already reduced index. -/
lemma add_mod_reduce (a b m : Nat) : (a % m + b) % m = (a + b) % m := by
  conv_lhs => rw [Nat.add_mod]
  conv_rhs => rw [Nat.add_mod]
  rw [Nat.mod_mod_of_dvd a dvd_rfl]

/-- The queue after filling positions `tail + j` (mod `m`) with new data. -/
lemma queueOf_eq_append (ctx ctx' : BstmCtx) (d : List Nat)
    (hcap : ctx'.cap_size = ctx.cap_size) (hhead : ctx'.head_idx = ctx.head_idx)
    (hused : ctx'.used_size = ctx.used_size + d.length)
    (hkeep : ∀ i, i < ctx.used_size →
      ctx'.ring_buff.getD ((ctx.head_idx + i) % (ctx.cap_size + 1)) 0 =
        ctx.ring_buff.getD ((ctx.head_idx + i) % (ctx.cap_size + 1)) 0)
    (hnew : ∀ j, j < d.length →
      ctx'.ring_buff.getD ((ctx.head_idx + (ctx.used_size + j)) % (ctx.cap_size + 1)) 0 =
        d.getD j 0) :
    queueOf ctx' = queueOf ctx ++ d := by
  unfold queueOf
  rw [hcap, hhead, hused]
  apply List.ext_getElem?
  intro i
  rw [range_map_getElem?, List.getElem?_append]
  simp only [List.length_map, List.length_range]
  rcases Nat.lt_or_ge i ctx.used_size with hi | hi
  · rw [if_pos (by omega), if_pos hi, range_map_getElem?, if_pos hi, hkeep i hi]
  · rcases Nat.lt_or_ge i (ctx.used_size + d.length) with hi2 | hi2
    · rw [if_pos hi2, if_neg (by omega)]
      have hj : i - ctx.used_size < d.length := by omega
      have hv := hnew (i - ctx.used_size) hj
      rw [show ctx.used_size + (i - ctx.used_size) = i from by omega] at hv
      rw [hv, getD_eq, List.getElem?_eq_getElem hj]
      simp
    · rw [if_neg (show ¬ i < ctx.used_size + d.length by omega)]
      rw [if_neg (show ¬ i < ctx.used_size by omega)]
      rw [List.getElem?_eq_none (show d.length ≤ i - ctx.used_size by omega)]

/-- The queue after advancing `head_idx` by `n` on an unchanged ring. -/
lemma queueOf_advance (ctx ctx' : BstmCtx) (n : Nat)
    (hcap : ctx'.cap_size = ctx.cap_size) (hring : ctx'.ring_buff = ctx.ring_buff)
    (hhead : ctx'.head_idx = (ctx.head_idx + n) % (ctx.cap_size + 1))
    (hused : ctx'.used_size = ctx.used_size - n) (hn : n ≤ ctx.used_size) :
    queueOf ctx' = (queueOf ctx).drop n := by
  unfold queueOf
  rw [hcap, hhead, hused, hring]
  apply List.ext_getElem?
  intro i
  rw [range_map_getElem?, List.getElem?_drop, range_map_getElem?]
  by_cases hi : i < ctx.used_size - n
  · rw [if_pos hi, if_pos (by omega), add_mod_reduce, Nat.add_assoc]
  · rw [if_neg hi, if_neg (by omega)]

/-- Concatenating two enumerations into one longer enumeration. -/
lemma range_map_append (f g h : Nat → Nat) (a b : Nat)
    (hf : ∀ i, i < a → h i = f i) (hg : ∀ j, j < b → h (a + j) = g j) :
    (List.range a).map f ++ (List.range b).map g = (List.range (a + b)).map h := by
  apply List.ext_getElem?
  intro i
  rw [List.getElem?_append]
  simp only [List.length_map, List.length_range]
  rw [range_map_getElem?, range_map_getElem?, range_map_getElem?]
  rcases Nat.lt_or_ge i a with hi | hi
  · rw [if_pos hi, if_pos hi, if_pos (by omega), hf i hi]
  · rcases Nat.lt_or_ge i (a + b) with hi2 | hi2
    · rw [if_neg (by omega), if_pos (by omega), if_pos hi2,
        ← hg (i - a) (by omega), show a + (i - a) = i from by omega]
    · rw [if_neg (by omega), if_neg (by omega), if_neg (by omega)]

/-- A FIFO prefix that stays inside the first physical segment. -/
lemma queueOf_take_nowrap (ctx : BstmCtx)
    (hring : ctx.cap_size + 1 ≤ ctx.ring_buff.length) (n : Nat)
    (hn : n ≤ ctx.used_size) (hA : ctx.head_idx + n ≤ ctx.cap_size + 1) :
    (ctx.ring_buff.drop ctx.head_idx).take n = (queueOf ctx).take n := by
  rw [drop_take_eq_range_map _ _ _ (by omega)]
  unfold queueOf
  rw [← List.map_take, List.take_range, min_eq_left hn]
  apply List.map_congr_left
  intro i hi
  have hi' : i < n := List.mem_range.mp hi
  rw [Nat.mod_eq_of_lt (by omega)]

/-- A FIFO prefix that wraps past the physical end of the storage. -/
lemma queueOf_take_wrap (ctx : BstmCtx)
    (hring : ctx.cap_size + 1 ≤ ctx.ring_buff.length)
    (hhead : ctx.head_idx < ctx.cap_size + 1) (hused : ctx.used_size ≤ ctx.cap_size)
    (n : Nat) (hn : n ≤ ctx.used_size) (hB : ctx.cap_size + 1 < ctx.head_idx + n) :
    (ctx.ring_buff.drop ctx.head_idx).take (ctx.cap_size + 1 - ctx.head_idx) ++
      ctx.ring_buff.take (n - (ctx.cap_size + 1 - ctx.head_idx)) =
      (queueOf ctx).take n := by
  unfold queueOf
  rw [← List.map_take, List.take_range, min_eq_left hn]
  rw [drop_take_eq_range_map _ _ _ (by omega)]
  rw [show ctx.ring_buff.take (n - (ctx.cap_size + 1 - ctx.head_idx)) =
      (ctx.ring_buff.drop 0).take (n - (ctx.cap_size + 1 - ctx.head_idx)) from by
    rw [List.drop_zero]]
  rw [drop_take_eq_range_map _ _ _ (by omega)]
  conv_rhs => rw [show n = (ctx.cap_size + 1 - ctx.head_idx) +
    (n - (ctx.cap_size + 1 - ctx.head_idx)) from by omega]
  apply range_map_append
  · intro i hi
    rw [Nat.mod_eq_of_lt (by omega)]
  · intro j hj
    rw [show ctx.head_idx + ((ctx.cap_size + 1 - ctx.head_idx) + j) =
        (ctx.cap_size + 1) + j from by omega,
      Nat.add_mod_left, Nat.mod_eq_of_lt (by omega), Nat.zero_add]

/-! ### `bstm_write` -/

lemma bstm_write_fail (ctx : BstmCtx) (d : List Nat) (h : ctx.free_size < d.length) :
    bstm_write ctx d = (BstmRes.ERR_NO_SPA, ctx) := by
  simp only [bstm_write]
  rw [if_neg (by omega), if_pos h]

/-- Every effect of a successful `bstm_write`: result code, all context
fields, preservation of the invariant and the FIFO abstraction. -/
lemma bstm_write_ok (ctx : BstmCtx) (h : WF ctx) (d : List Nat)
    (hd : d.length ≤ ctx.free_size) :
    (bstm_write ctx d).1 = BstmRes.OK ∧
    (bstm_write ctx d).2.cap_size = ctx.cap_size ∧
    (bstm_write ctx d).2.head_idx = ctx.head_idx ∧
    (bstm_write ctx d).2.tail_idx = (ctx.tail_idx + d.length) % (ctx.cap_size + 1) ∧
    (bstm_write ctx d).2.used_size = ctx.used_size + d.length ∧
    (bstm_write ctx d).2.free_size = ctx.free_size - d.length ∧
    (bstm_write ctx d).2.ring_buff.length = ctx.ring_buff.length ∧
    queueOf (bstm_write ctx d).2 = queueOf ctx ++ d ∧
    WF (bstm_write ctx d).2 := by
  obtain ⟨hcap, hring, hhead, htail, hused, hfree⟩ := h
  have hm : 0 < ctx.cap_size + 1 := Nat.succ_pos _
  have hrlen : ctx.cap_size + 1 ≤ ctx.ring_buff.length := by
    rw [hring]; exact buffSizeOf_ge _ hcap
  have htail_lt : ctx.tail_idx < ctx.cap_size + 1 := by
    rw [htail]; exact Nat.mod_lt _ hm
  by_cases h0 : d.length = 0
  · have hd0 : d = [] := List.length_eq_zero.mp h0
    subst hd0
    have hw : bstm_write ctx [] = (BstmRes.OK, ctx) := by simp [bstm_write]
    rw [hw]
    refine ⟨rfl, rfl, rfl, ?_, by simp, by simp, rfl, by simp, ?_⟩
    · simp only [List.length_nil, Nat.add_zero]
      exact (Nat.mod_eq_of_lt htail_lt).symm
    · exact ⟨hcap, hring, hhead, htail, hused, hfree⟩
  · rcases Nat.lt_or_ge (ctx.cap_size + 1 - ctx.tail_idx) d.length with hB | hA
    · -- wrapping branch
      have hscs_lt : d.length - (ctx.cap_size + 1 - ctx.tail_idx) < ctx.tail_idx := by omega
      have hfcs1 : (d.take (ctx.cap_size + 1 - ctx.tail_idx)).length =
          ctx.cap_size + 1 - ctx.tail_idx := by simp; omega
      have hfcs2 : (d.drop (ctx.cap_size + 1 - ctx.tail_idx)).length =
          d.length - (ctx.cap_size + 1 - ctx.tail_idx) := by simp
      have hinlen : (memcpyInto ctx.ring_buff ctx.tail_idx
          (d.take (ctx.cap_size + 1 - ctx.tail_idx))).length = ctx.ring_buff.length := by
        rw [length_memcpyInto]
        rw [hfcs1]; omega
      have htmod : (ctx.tail_idx + d.length) % (ctx.cap_size + 1) =
          d.length - (ctx.cap_size + 1 - ctx.tail_idx) := by
        rcases mod_two_cases (ctx.tail_idx + d.length) (ctx.cap_size + 1) (by omega)
          with ⟨e, l⟩ | ⟨e, l⟩ <;> omega
      simp only [bstm_write, if_neg h0, if_neg (by omega : ¬ ctx.free_size < d.length),
        if_neg (by omega : ¬ d.length ≤ ctx.cap_size + 1 - ctx.tail_idx)]
      refine ⟨trivial, trivial, trivial, by rw [htmod], trivial, trivial, ?_, ?_, ?_⟩
      · rw [length_memcpyInto, hinlen]
        rw [hinlen, hfcs2]; omega
      · apply queueOf_eq_append <;> try rfl
        · intro i hi
          have hdisj : ((ctx.head_idx + i) % (ctx.cap_size + 1) < ctx.tail_idx ∧
              d.length - (ctx.cap_size + 1 - ctx.tail_idx) ≤
                (ctx.head_idx + i) % (ctx.cap_size + 1)) := by
            rcases mod_two_cases (ctx.head_idx + i) (ctx.cap_size + 1) (by omega)
              with ⟨e1, l1⟩ | ⟨e1, l1⟩ <;>
            rcases mod_two_cases (ctx.head_idx + ctx.used_size) (ctx.cap_size + 1) (by omega)
              with ⟨e2, l2⟩ | ⟨e2, l2⟩ <;> omega
          rw [getD_eq, getD_eq,
            getElem?_memcpyInto_ge _ 0 _ _ (by rw [hfcs2]; omega) (by omega),
            getElem?_memcpyInto_lt _ _ _ _ hdisj.1 (by omega)]
        · intro j hj
          have e0 : (ctx.head_idx + (ctx.used_size + j)) % (ctx.cap_size + 1) =
              (ctx.tail_idx + j) % (ctx.cap_size + 1) := by
            rw [show ctx.head_idx + (ctx.used_size + j) =
                ctx.head_idx + ctx.used_size + j from by omega, ← add_mod_reduce, ← htail]
          rcases Nat.lt_or_ge j (ctx.cap_size + 1 - ctx.tail_idx) with hj1 | hj1
          · have e1 : (ctx.tail_idx + j) % (ctx.cap_size + 1) = ctx.tail_idx + j :=
              Nat.mod_eq_of_lt (by omega)
            rw [e0, e1, getD_eq, getD_eq,
              getElem?_memcpyInto_ge _ 0 _ _ (by rw [hfcs2]; omega) (by omega),
              getElem?_memcpyInto_mid _ _ _ _ (by omega) (by rw [hfcs1]; omega) (by omega),
              show ctx.tail_idx + j - ctx.tail_idx = j from by omega,
              List.getElem?_take, if_pos hj1]
          · have e1 : (ctx.tail_idx + j) % (ctx.cap_size + 1) =
                j - (ctx.cap_size + 1 - ctx.tail_idx) := by
              rcases mod_two_cases (ctx.tail_idx + j) (ctx.cap_size + 1) (by omega)
                with ⟨e, l⟩ | ⟨e, l⟩ <;> omega
            rw [e0, e1, getD_eq, getD_eq,
              getElem?_memcpyInto_mid _ 0 _ _ (by omega) (by rw [hfcs2]; omega) (by omega),
              Nat.sub_zero, List.getElem?_drop,
              show ctx.cap_size + 1 - ctx.tail_idx + (j - (ctx.cap_size + 1 - ctx.tail_idx)) =
                j from by omega]
      · refine ⟨hcap, ?_, hhead, ?_, by dsimp only; omega, by dsimp only; omega⟩
        · rw [length_memcpyInto, hinlen, hring]
          rw [hinlen, hfcs2]; omega
        · dsimp only
          rw [show ctx.head_idx + (ctx.used_size + d.length) =
            ctx.head_idx + ctx.used_size + d.length from by omega]
          conv_rhs => rw [← add_mod_reduce]
          rw [← htail, htmod]
    · -- non-wrapping branch
      simp only [bstm_write, if_neg h0, if_neg (by omega : ¬ ctx.free_size < d.length),
        if_pos (by omega : d.length ≤ ctx.cap_size + 1 - ctx.tail_idx)]
      refine ⟨trivial, trivial, trivial, trivial, trivial, trivial, ?_, ?_, ?_⟩
      · rw [length_memcpyInto]; omega
      · apply queueOf_eq_append <;> try rfl
        · intro i hi
          have hdisj : ((ctx.head_idx + i) % (ctx.cap_size + 1) < ctx.tail_idx ∨
              ctx.tail_idx + d.length ≤ (ctx.head_idx + i) % (ctx.cap_size + 1)) := by
            rcases mod_two_cases (ctx.head_idx + i) (ctx.cap_size + 1) (by omega)
              with ⟨e1, l1⟩ | ⟨e1, l1⟩ <;>
            rcases mod_two_cases (ctx.head_idx + ctx.used_size) (ctx.cap_size + 1) (by omega)
              with ⟨e2, l2⟩ | ⟨e2, l2⟩ <;> omega
          rcases hdisj with hlt | hge
          · rw [getD_eq, getD_eq, getElem?_memcpyInto_lt _ _ _ _ hlt (by omega)]
          · rw [getD_eq, getD_eq, getElem?_memcpyInto_ge _ _ _ _ hge (by omega)]
        · intro j hj
          have e : (ctx.head_idx + (ctx.used_size + j)) % (ctx.cap_size + 1) =
              ctx.tail_idx + j := by
            rw [show ctx.head_idx + (ctx.used_size + j) =
                ctx.head_idx + ctx.used_size + j from by omega, ← add_mod_reduce, ← htail,
              Nat.mod_eq_of_lt (by omega)]
          rw [e, getD_eq, getD_eq,
            getElem?_memcpyInto_mid _ _ _ _ (by omega) (by omega) (by omega),
            show ctx.tail_idx + j - ctx.tail_idx = j from by omega]
      · refine ⟨hcap, ?_, hhead, ?_, by dsimp only; omega, by dsimp only; omega⟩
        · rw [length_memcpyInto _ _ _ (by omega), hring]
        · dsimp only
          rw [show ctx.head_idx + (ctx.used_size + d.length) =
            ctx.head_idx + ctx.used_size + d.length from by omega]
          conv_rhs => rw [← add_mod_reduce]
          rw [← htail]

/-! ### `bstm_read` -/

lemma bstm_read_fail (ctx : BstmCtx) (dflag : Bool) (n : Nat)
    (h : ctx.used_size < n) :
    bstm_read ctx dflag n = (BstmRes.ERR_NO_DAT, ctx, []) := by
  simp only [bstm_read]
  rw [if_neg (by omega), if_pos h]

/-- Every effect of a successful `bstm_read`: result code, all context
fields, the bytes delivered, preservation of invariant and FIFO view. -/
lemma bstm_read_ok (ctx : BstmCtx) (h : WF ctx) (dflag : Bool) (n : Nat)
    (hn : n ≤ ctx.used_size) :
    (bstm_read ctx dflag n).1 = BstmRes.OK ∧
    (bstm_read ctx dflag n).2.1.cap_size = ctx.cap_size ∧
    (bstm_read ctx dflag n).2.1.ring_buff = ctx.ring_buff ∧
    (bstm_read ctx dflag n).2.1.head_idx = (ctx.head_idx + n) % (ctx.cap_size + 1) ∧
    (bstm_read ctx dflag n).2.1.tail_idx = ctx.tail_idx ∧
    (bstm_read ctx dflag n).2.1.used_size = ctx.used_size - n ∧
    (bstm_read ctx dflag n).2.1.free_size = ctx.free_size + n ∧
    (bstm_read ctx dflag n).2.2 = (if dflag then (queueOf ctx).take n else []) ∧
    queueOf (bstm_read ctx dflag n).2.1 = (queueOf ctx).drop n ∧
    WF (bstm_read ctx dflag n).2.1 := by
  obtain ⟨hcap, hring, hhead, htail, hused, hfree⟩ := h
  have hm : 0 < ctx.cap_size + 1 := Nat.succ_pos _
  have hrlen : ctx.cap_size + 1 ≤ ctx.ring_buff.length := by
    rw [hring]; exact buffSizeOf_ge _ hcap
  by_cases h0 : n = 0
  · subst h0
    have hr : bstm_read ctx dflag 0 = (BstmRes.OK, ctx, []) := by simp [bstm_read]
    rw [hr]
    refine ⟨rfl, rfl, rfl, ?_, rfl, by dsimp only; omega, by dsimp only; omega,
      by simp, by simp, ?_⟩
    · simp only [Nat.add_zero]
      exact (Nat.mod_eq_of_lt hhead).symm
    · exact ⟨hcap, hring, hhead, htail, hused, hfree⟩
  · rcases Nat.lt_or_ge (ctx.cap_size + 1 - ctx.head_idx) n with hB | hA
    · -- wrapping branch
      simp only [bstm_read, if_neg h0, if_neg (by omega : ¬ ctx.used_size < n),
        if_neg (by omega : ¬ n ≤ ctx.cap_size + 1 - ctx.head_idx)]
      have hmod : (ctx.head_idx + n) % (ctx.cap_size + 1) =
          n - (ctx.cap_size + 1 - ctx.head_idx) := by
        rcases mod_two_cases (ctx.head_idx + n) (ctx.cap_size + 1) (by omega)
          with ⟨e, l⟩ | ⟨e, l⟩ <;> omega
      refine ⟨trivial, trivial, trivial, by (try dsimp only); rw [hmod], trivial, trivial,
        trivial, ?_, ?_, ?_⟩
      · cases dflag with
        | false => simp
        | true => simpa using queueOf_take_wrap ctx hrlen hhead hused n hn (by omega)
      · refine queueOf_advance _ _ n rfl rfl ?_ rfl hn
        try dsimp only
        rw [hmod]
      · refine ⟨hcap, by (try dsimp only); exact hring, by (try dsimp only); omega, ?_,
          by (try dsimp only); omega, by (try dsimp only); omega⟩
        try dsimp only
        rw [← hmod, add_mod_reduce,
          show ctx.head_idx + n + (ctx.used_size - n) = ctx.head_idx + ctx.used_size
            from by omega, ← htail]
    · -- non-wrapping branch
      simp only [bstm_read, if_neg h0, if_neg (by omega : ¬ ctx.used_size < n),
        if_pos (by omega : n ≤ ctx.cap_size + 1 - ctx.head_idx)]
      refine ⟨trivial, trivial, trivial, trivial, trivial, trivial, trivial, ?_, ?_, ?_⟩
      · cases dflag with
        | false => simp
        | true => simpa using queueOf_take_nowrap ctx hrlen n hn (by omega)
      · exact queueOf_advance _ _ n rfl rfl rfl rfl hn
      · refine ⟨hcap, by (try dsimp only); exact hring,
          by (try dsimp only); exact Nat.mod_lt _ hm, ?_,
          by (try dsimp only); omega, by (try dsimp only); omega⟩
        try dsimp only
        rw [add_mod_reduce,
          show ctx.head_idx + n + (ctx.used_size - n) = ctx.head_idx + ctx.used_size
            from by omega, ← htail]

/-! ### Refinement of the ideal FIFO queue -/

/-- Simulation: from any well-formed context, the implementation run and the
ideal queue run fail at the same point and deliver the same read outputs. -/
lemma runImpl_sim (ops : List StreamOp) :
    ∀ ctx : BstmCtx, WF ctx →
      Option.map (fun p => p.2) (runImpl ctx ops) =
        Option.map (fun p => p.2) (runSpec ctx.cap_size (queueOf ctx) ops) := by
  induction ops with
  | nil => intro ctx _; rfl
  | cons op ops ih =>
    intro ctx h
    cases op with
    | wr d =>
      rcases Nat.lt_or_ge ctx.free_size d.length with hlt | hge
      · have hguard : ctx.cap_size - (queueOf ctx).length < d.length := by
          obtain ⟨_, _, _, _, hu, hf⟩ := h
          rw [length_queueOf]; omega
        simp only [runImpl, bstm_write_fail ctx d hlt, runSpec, if_pos hguard]
        rfl
      · obtain ⟨hres, hcap', hhead', htail', hused', hfree', hrlen', hq', hWF'⟩ :=
          bstm_write_ok ctx h d hge
        have hguard : ¬ ctx.cap_size - (queueOf ctx).length < d.length := by
          obtain ⟨_, _, _, _, hu, hf⟩ := h
          rw [length_queueOf]; omega
        obtain ⟨c1, hc1⟩ : ∃ c1, bstm_write ctx d = (BstmRes.OK, c1) :=
          ⟨(bstm_write ctx d).2, by rw [← hres]⟩
        rw [hc1] at hcap' hq' hWF'
        dsimp only at hcap' hq' hWF'
        simp only [runImpl, hc1, runSpec, if_neg hguard]
        have ihx := ih c1 hWF'
        rw [hcap', hq'] at ihx
        exact ihx
    | rd n =>
      rcases Nat.lt_or_ge ctx.used_size n with hlt | hge
      · have hguard : (queueOf ctx).length < n := by rw [length_queueOf]; exact hlt
        simp only [runImpl, bstm_read_fail ctx true n hlt, runSpec, if_pos hguard]
        rfl
      · obtain ⟨hres, hcap', hring', hhead', htail', hused', hfree', hout, hq', hWF'⟩ :=
          bstm_read_ok ctx h true n hge
        have hguard : ¬ (queueOf ctx).length < n := by rw [length_queueOf]; omega
        obtain ⟨c1, o1, hc1⟩ : ∃ c1 o1, bstm_read ctx true n = (BstmRes.OK, c1, o1) :=
          ⟨(bstm_read ctx true n).2.1, (bstm_read ctx true n).2.2, by rw [← hres]⟩
        rw [hc1] at hcap' hq' hWF' hout
        dsimp only at hcap' hq' hWF' hout
        simp only [runImpl, hc1, runSpec, if_neg hguard]
        have ihx := ih c1 hWF'
        rw [hcap', hq'] at ihx
        have hout' : o1 = (queueOf ctx).take n := by rw [hout]; rfl
        cases hri : runImpl c1 ops with
        | none =>
          rw [hri] at ihx
          cases hrs : runSpec ctx.cap_size ((queueOf ctx).drop n) ops with
          | none => simp [hri, hrs]
          | some w => rw [hrs] at ihx; simp at ihx
        | some v =>
          rw [hri] at ihx
          cases hrs : runSpec ctx.cap_size ((queueOf ctx).drop n) ops with
          | none => rw [hrs] at ihx; simp at ihx
          | some w =>
            rw [hrs] at ihx
            simp only [Option.map_some'] at ihx
            simp [hri, hrs, hout', Option.some_inj.mp ihx]

/-! ### `bstm_readline` facts -/

lemma find_eol_pos (l : List Nat) (h : (find_eol l).1 ≠ Eol.NONE) :
    0 < (find_eol l).2 ∧ (find_eol l).2 ≤ l.length := by
  rcases find_eol_spec l with ⟨h1, _⟩ | ⟨_, h2, h3⟩
  · exact absurd h1 h
  · exact ⟨h2, h3⟩

/-- State effect of `bstm_readline`: either the context is left untouched
(all error paths and the discard mode), or the line of some positive length
`ls ≤ used_size` is consumed: `head_idx` advances by `ls` modulo
`cap_size + 1`, the cache moves `ls` bytes from used to free, the ring,
`tail_idx` and the capacity stay, the destination receives `ls` bytes and
`*len` receives `ls`. -/
lemma bstm_readline_state (ctx : BstmCtx) (h : WF ctx) (dflag : Bool) (size : Nat)
    (lflag : Bool) :
    (bstm_readline ctx dflag size lflag).2.1 = ctx ∨
    (dflag = true ∧ ∃ ls, 0 < ls ∧ ls ≤ ctx.used_size ∧
      (bstm_readline ctx dflag size lflag).1 = BstmRes.OK ∧
      (bstm_readline ctx dflag size lflag).2.1 =
        { ctx with
            head_idx := (ctx.head_idx + ls) % (ctx.cap_size + 1)
            used_size := ctx.used_size - ls
            free_size := ctx.free_size + ls } ∧
      (bstm_readline ctx dflag size lflag).2.2.1.length = ls ∧
      (bstm_readline ctx dflag size lflag).2.2.2 = (if lflag then some ls else none)) := by
  obtain ⟨hcap, hring, hhead, htail, hused, hfree⟩ := h
  have hm : 0 < ctx.cap_size + 1 := Nat.succ_pos _
  have hrlen : ctx.cap_size + 1 ≤ ctx.ring_buff.length := by
    rw [hring]; exact buffSizeOf_ge _ hcap
  by_cases hargs : dflag = false ∧ lflag = false
  · left; simp [bstm_readline, hargs]
  by_cases hsz : size = 0
  · left; simp [bstm_readline, hargs, hsz]
  by_cases hu0 : ctx.used_size = 0
  · left; simp [bstm_readline, hargs, hsz, hu0]
  cases dflag with
  | false =>
    left
    simp only [bstm_readline, if_neg hargs, if_neg hsz, if_neg hu0]
    split_ifs <;> first
    | rfl
    | exact False.elim (by assumption)
    | simp
  | true =>
    simp only [bstm_readline, if_neg hargs, if_neg hsz, if_neg hu0, if_true]
    by_cases hbr : ctx.used_size ≤ ctx.cap_size + 1 - ctx.head_idx
    · -- the buffered bytes lie in one physical segment
      rw [if_pos hbr]
      by_cases hn : (find_eol ((ctx.ring_buff.drop ctx.head_idx).take ctx.used_size)).1 =
          Eol.NONE
      · left; rw [if_pos hn]
      · rw [if_neg hn]
        obtain ⟨hpos, hle⟩ := find_eol_pos _ hn
        rw [drop_take_length _ _ _ (by omega)] at hle
        by_cases hbig :
            (find_eol ((ctx.ring_buff.drop ctx.head_idx).take ctx.used_size)).2 > size
        · left; rw [if_pos hbig]
        · rw [if_neg hbig]
          right
          refine ⟨trivial, (find_eol ((ctx.ring_buff.drop ctx.head_idx).take ctx.used_size)).2,
            hpos, hle, rfl, rfl, ?_, rfl⟩
          exact drop_take_length _ _ _ (by omega)
    · -- the buffered bytes wrap; two-segment scan
      rw [if_neg hbr]
      have hw2 : ctx.cap_size + 1 ≤ ctx.head_idx + ctx.used_size := by omega
      have htail2 : ctx.tail_idx = ctx.head_idx + ctx.used_size - (ctx.cap_size + 1) := by
        rcases mod_two_cases (ctx.head_idx + ctx.used_size) (ctx.cap_size + 1) (by omega)
          with ⟨e, l⟩ | ⟨e, l⟩ <;> omega
      have htail_lt : ctx.tail_idx < ctx.cap_size + 1 := by omega
      by_cases hn : (find_eol ((ctx.ring_buff.drop ctx.head_idx).take
          (ctx.cap_size + 1 - ctx.head_idx))).1 = Eol.NONE
      · rw [if_pos hn]
        by_cases hn2 : (find_eol (ctx.ring_buff.take ctx.tail_idx)).1 = Eol.NONE
        · left; rw [if_pos hn2]
        · rw [if_neg hn2]
          obtain ⟨hpos2, hle2⟩ := find_eol_pos _ hn2
          rw [List.length_take, min_eq_left (by omega)] at hle2
          right
          refine ⟨trivial, ctx.cap_size + 1 - ctx.head_idx +
            (find_eol (ctx.ring_buff.take ctx.tail_idx)).2, by omega, by omega, rfl, ?_, ?_, rfl⟩
          · rw [show ctx.head_idx + (ctx.cap_size + 1 - ctx.head_idx +
                (find_eol (ctx.ring_buff.take ctx.tail_idx)).2) =
              (ctx.cap_size + 1) + (find_eol (ctx.ring_buff.take ctx.tail_idx)).2
              from by omega, Nat.add_mod_left, Nat.mod_eq_of_lt (by omega)]
          · rw [List.length_append, drop_take_length _ _ _ (by omega),
              List.length_take, min_eq_left (by omega)]
      · rw [if_neg hn]
        obtain ⟨hpos, hle⟩ := find_eol_pos _ hn
        rw [drop_take_length _ _ _ (by omega)] at hle
        by_cases hcr : (find_eol ((ctx.ring_buff.drop ctx.head_idx).take
            (ctx.cap_size + 1 - ctx.head_idx))).1 = Eol.CR ∧
            (find_eol ((ctx.ring_buff.drop ctx.head_idx).take
              (ctx.cap_size + 1 - ctx.head_idx))).2 = ctx.cap_size + 1 - ctx.head_idx
        · rw [if_pos hcr]
          by_cases hlf : ctx.ring_buff.getD 0 0 = 10
          · rw [if_pos hlf]
            by_cases hbig : (find_eol ((ctx.ring_buff.drop ctx.head_idx).take
                (ctx.cap_size + 1 - ctx.head_idx))).2 + 1 > size
            · left; rw [if_pos hbig]
            · rw [if_neg hbig]
              right
              refine ⟨trivial, (find_eol ((ctx.ring_buff.drop ctx.head_idx).take
                  (ctx.cap_size + 1 - ctx.head_idx))).2 + 1, by omega, by omega, rfl, ?_, ?_,
                rfl⟩
              · rw [hcr.2, show ctx.head_idx + (ctx.cap_size + 1 - ctx.head_idx + 1) =
                  (ctx.cap_size + 1) + 1 from by omega, Nat.add_mod_left,
                  Nat.mod_eq_of_lt (by omega)]
              · rw [List.length_append, drop_take_length _ _ _ (by omega), hcr.2]
                simp
          · rw [if_neg hlf]
            by_cases hbig : (find_eol ((ctx.ring_buff.drop ctx.head_idx).take
                (ctx.cap_size + 1 - ctx.head_idx))).2 > size
            · left; rw [if_pos hbig]
            · rw [if_neg hbig]
              right
              refine ⟨trivial, (find_eol ((ctx.ring_buff.drop ctx.head_idx).take
                  (ctx.cap_size + 1 - ctx.head_idx))).2, hpos, by omega, rfl, rfl, ?_, rfl⟩
              exact drop_take_length _ _ _ (by omega)
        · rw [if_neg hcr]
          by_cases hbig : (find_eol ((ctx.ring_buff.drop ctx.head_idx).take
              (ctx.cap_size + 1 - ctx.head_idx))).2 > size
          · left; rw [if_pos hbig]
          · rw [if_neg hbig]
            right
            refine ⟨trivial, (find_eol ((ctx.ring_buff.drop ctx.head_idx).take
                (ctx.cap_size + 1 - ctx.head_idx))).2, hpos, by omega, rfl, rfl, ?_, rfl⟩
            exact drop_take_length _ _ _ (by omega)

/-- Discard mode of `bstm_readline` (`data == NULL`, `len` provided): same
result code and same reported length as the destructive call, but the
context is returned untouched and nothing is copied. -/
lemma bstm_readline_discard (ctx : BstmCtx) (size : Nat) :
    bstm_readline ctx false size true =
      ((bstm_readline ctx true size true).1, ctx, [],
        (bstm_readline ctx true size true).2.2.2) := by
  by_cases hsz : size = 0
  · simp [bstm_readline, hsz]
  by_cases hu0 : ctx.used_size = 0
  · simp [bstm_readline, hsz, hu0]
  simp only [bstm_readline, if_neg hsz, if_neg hu0, if_true]
  split_ifs <;> first
  | rfl
  | exact False.elim (by simp_all)

/-- `bstm_peek` returns the context untouched on every path. -/
lemma bstm_peek_frame (ctx : BstmCtx) (offs size : Nat) :
    (bstm_peek ctx offs size).2.1 = ctx := by
  simp only [bstm_peek]
  split_ifs <;> rfl

/-- When the destructive `bstm_readline` succeeds with `len` provided,
`*len` is written. -/
lemma bstm_readline_true_ok_len (ctx : BstmCtx) (size : Nat)
    (h : (bstm_readline ctx true size true).1 = BstmRes.OK) :
    ((bstm_readline ctx true size true).2.2.2).isSome = true := by
  simp only [bstm_readline,
    if_neg (show ¬((true : Bool) = false ∧ (true : Bool) = false) from by simp)] at h ⊢
  split_ifs at h ⊢ <;> first
  | rfl
  | exact absurd h (by simp)

/-- The context built by `bstm_new` is well formed. -/
lemma WF_new (cap : Nat) (h : cap ≤ U32 - 9) : WF (bstm_new (some cap)).2 := by
  refine ⟨h, by simp [bstm_new], by simp [bstm_new], by simp [bstm_new],
    by simp [bstm_new], by simp [bstm_new]⟩

/-! ### Claim theorems -/

/-- C1: the second-segment scan branch of `bstm_readline` (terminator found
only in the wrapped physical segment) performs no `line_size > size` check:
on `c1ctx` (wrapped line `"EFG\n"` of length 4) with destination capacity 2
the call returns `BSTM_OK` instead of `BSTM_ERR_BAD_SIZE`, copies 4 bytes
into the 2-byte destination, reports length 4 and consumes the line,
contradicting the function's own documented `BSTM_ERR_BAD_SIZE` contract. -/
theorem C1_readline_missing_size_check :
    c1ctx.head_idx = 4 ∧ c1ctx.used_size = 5 ∧ c1ctx.cap_size = 5 ∧
    (bstm_readline c1ctx true 2 true).1 = BstmRes.OK ∧
    (bstm_readline c1ctx true 2 true).2.2.2 = some 4 ∧
    (bstm_readline c1ctx true 2 true).2.2.1 = [69, 70, 71, 10] ∧
    (bstm_readline c1ctx true 2 true).2.1.head_idx = 2 ∧
    (bstm_readline c1ctx true 2 true).2.1.used_size = 1 := by
  decide

/-- C2 (counterexample): on `c2ctx` (capacity 1, tail at 1, allocated array
length 8) a successful 1-byte `bstm_write` moves the tail to
`(1 + 1) % 2 = 0`, not to `(1 + 1) % 8 = 2` as the claim's
allocated-length modulus would demand. -/
theorem C2_counterexample :
    (bstm_write c2ctx [66]).1 = BstmRes.OK ∧
    c2ctx.tail_idx = 1 ∧
    c2ctx.ring_buff.length = 8 ∧
    (bstm_write c2ctx [66]).2.tail_idx = 0 ∧
    (c2ctx.tail_idx + 1) % c2ctx.ring_buff.length = 2 := by
  decide

/-- C2 (amended): for every successful write of `n > 0` bytes the tail
index becomes `(tail + n) % (cap_size + 1)`, and for every successful read
of `n > 0` bytes the head index becomes `(head + n) % (cap_size + 1)`: the
advancement modulus is the requested capacity plus one, not the allocated
array length. -/
theorem C2_index_advance_modulus (ctx : BstmCtx) (h : WF ctx) :
    (∀ d : List Nat, 0 < d.length → (bstm_write ctx d).1 = BstmRes.OK →
      (bstm_write ctx d).2.tail_idx = (ctx.tail_idx + d.length) % (ctx.cap_size + 1)) ∧
    (∀ (dflag : Bool) (n : Nat), 0 < n → (bstm_read ctx dflag n).1 = BstmRes.OK →
      (bstm_read ctx dflag n).2.1.head_idx = (ctx.head_idx + n) % (ctx.cap_size + 1)) := by
  constructor
  · intro d _ hok
    rcases Nat.lt_or_ge ctx.free_size d.length with hlt | hge
    · rw [bstm_write_fail ctx d hlt] at hok
      exact absurd hok (by simp)
    · exact (bstm_write_ok ctx h d hge).2.2.2.1
  · intro dflag n _ hok
    rcases Nat.lt_or_ge ctx.used_size n with hlt | hge
    · rw [bstm_read_fail ctx dflag n hlt] at hok
      exact absurd hok (by simp)
    · exact (bstm_read_ok ctx h dflag n hge).2.2.2.1

theorem C2_index_advance_modulus_witness :
    (bstm_write wfctx5 [65]).2.tail_idx =
      (wfctx5.tail_idx + [65].length) % (wfctx5.cap_size + 1) ∧
    (bstm_read (bstm_write wfctx5 [65]).2 true 1).2.1.head_idx =
      ((bstm_write wfctx5 [65]).2.head_idx + 1) % ((bstm_write wfctx5 [65]).2.cap_size + 1) :=
  ⟨(C2_index_advance_modulus wfctx5 (by decide)).1 [65] (by decide) (by decide),
   (C2_index_advance_modulus (bstm_write wfctx5 [65]).2 (by decide)).2 true 1 (by decide)
     (by decide)⟩

/-- C3 (counterexample): `bstm_new` does not reject capacity 0, nor a
capacity above `0xFFFFFFFF - 8`: both construct a context and return
`BSTM_OK` - there is no runtime capacity validation. -/
theorem C3_counterexample :
    (bstm_new (some 0)).1 = BstmRes.OK ∧
    (bstm_new (some 0)).2.cap_size = 0 ∧
    (bstm_new (some 4294967295)).1 = BstmRes.OK ∧
    (bstm_new (some 4294967295)).2.cap_size = 4294967295 := by
  decide

/-- C3 (amended): `bstm_new` performs no runtime validation of the
requested capacity (the 0 and `0xFFFFFFFF - 8` bounds are contract-only):
every configuration constructs a buffer and returns `BSTM_OK`, the
requested capacity is stored as is, and a missing configuration
substitutes the default capacity 1024. -/
theorem C3_no_capacity_validation :
    (∀ conf : Option Nat, (bstm_new conf).1 = BstmRes.OK) ∧
    (bstm_new none).2.cap_size = BSTM_DEF_CAP_SIZE ∧
    BSTM_DEF_CAP_SIZE = 1024 ∧
    (∀ c : Nat, (bstm_new (some c)).2.cap_size = c) := by
  refine ⟨?_, rfl, rfl, ?_⟩
  · intro conf
    cases conf <;> rfl
  · intro c
    rfl

/-- C4: starting from a fresh stream of any admissible capacity, any
sequence of writes and reads behaves exactly like the ideal
capacity-bounded FIFO queue: both fail at the same operation, and every
successful read returns exactly the oldest bytes previously written, in
order - including sequences whose cumulative byte count crosses the
physical end of the allocated array. -/
theorem C4_fifo_roundtrip (cap : Nat) (hcap : cap ≤ U32 - 9) (ops : List StreamOp) :
    Option.map (fun p => p.2) (runImpl (bstm_new (some cap)).2 ops) =
      Option.map (fun p => p.2) (runSpec cap [] ops) := by
  have h := runImpl_sim ops (bstm_new (some cap)).2 (WF_new cap hcap)
  rw [show (bstm_new (some cap)).2.cap_size = cap from rfl,
    show queueOf (bstm_new (some cap)).2 = [] from by simp [queueOf, bstm_new]] at h
  exact h

theorem C4_fifo_roundtrip_witness :
    Option.map (fun p => p.2) (runImpl (bstm_new (some 10)).2 c4ops) =
      Option.map (fun p => p.2) (runSpec 10 [] c4ops) ∧
    Option.map (fun p => p.2) (runImpl (bstm_new (some 10)).2 c4ops) =
      some [[1, 2, 3, 4, 5, 6, 7, 8], [9, 10, 11, 12, 13, 14, 15, 16]] :=
  ⟨C4_fifo_roundtrip 10 (by decide) c4ops, by decide⟩

/-- C5: after every operation on a well-formed stream - write, read, peek,
readline, clear - and regardless of success or failure, the cached
counters satisfy `used_size + free_size = cap_size`. -/
theorem C5_used_plus_free_invariant (ctx : BstmCtx) (h : WF ctx) :
    (∀ d : List Nat,
      (bstm_write ctx d).2.used_size + (bstm_write ctx d).2.free_size = ctx.cap_size) ∧
    (∀ (dflag : Bool) (n : Nat),
      (bstm_read ctx dflag n).2.1.used_size + (bstm_read ctx dflag n).2.1.free_size =
        ctx.cap_size) ∧
    (∀ offs n : Nat,
      (bstm_peek ctx offs n).2.1.used_size + (bstm_peek ctx offs n).2.1.free_size =
        ctx.cap_size) ∧
    (∀ (dflag : Bool) (size : Nat) (lflag : Bool),
      (bstm_readline ctx dflag size lflag).2.1.used_size +
        (bstm_readline ctx dflag size lflag).2.1.free_size = ctx.cap_size) ∧
    (bstm_clear ctx).2.used_size + (bstm_clear ctx).2.free_size = ctx.cap_size := by
  have hsum : ctx.used_size + ctx.free_size = ctx.cap_size := by
    obtain ⟨_, _, _, _, hu, hf⟩ := h
    omega
  refine ⟨?_, ?_, ?_, ?_, by simp [bstm_clear]⟩
  · intro d
    rcases Nat.lt_or_ge ctx.free_size d.length with hlt | hge
    · rw [bstm_write_fail ctx d hlt]
      exact hsum
    · obtain ⟨-, -, -, -, hu, hf, -, -, -⟩ := bstm_write_ok ctx h d hge
      omega
  · intro dflag n
    rcases Nat.lt_or_ge ctx.used_size n with hlt | hge
    · rw [bstm_read_fail ctx dflag n hlt]
      exact hsum
    · obtain ⟨-, -, -, -, -, hu, hf, -, -, -⟩ := bstm_read_ok ctx h dflag n hge
      omega
  · intro offs n
    rw [bstm_peek_frame ctx offs n]
    exact hsum
  · intro dflag size lflag
    rcases bstm_readline_state ctx h dflag size lflag with heq | ⟨-, ls, hpos, hle, -, heq, -, -⟩
    · rw [heq]
      exact hsum
    · rw [heq]
      dsimp only
      omega

theorem C5_used_plus_free_invariant_witness :
    ((bstm_write wfctx5 [65, 66]).2.used_size +
      (bstm_write wfctx5 [65, 66]).2.free_size = wfctx5.cap_size) ∧
    ((bstm_readline wfctx5 true 3 true).2.1.used_size +
      (bstm_readline wfctx5 true 3 true).2.1.free_size = wfctx5.cap_size) ∧
    ((bstm_clear wfctx5).2.used_size + (bstm_clear wfctx5).2.free_size = wfctx5.cap_size) :=
  ⟨(C5_used_plus_free_invariant wfctx5 (by decide)).1 [65, 66],
   (C5_used_plus_free_invariant wfctx5 (by decide)).2.2.2.1 true 3 true,
   (C5_used_plus_free_invariant wfctx5 (by decide)).2.2.2.2⟩

/-- C6: whenever the buffered bytes wrap past the physical end of storage,
the first physical segment (indices `head_idx` to `cap_size`) ends in a CR
at index `cap_size` with no earlier terminator, and the first wrapped byte
`ring_buff[0]` is LF, the destructive `bstm_readline` with sufficient
destination capacity reports one line terminated by the CRLF pair spanning
the wrap: the reported length is the first segment plus one (CR and LF both
included), the delivered bytes are the first segment followed by the LF,
and both terminator bytes are consumed (`head_idx` ends up at 1, `used`
drops by the full length). -/
theorem C6_crlf_spanning_wrap (ctx : BstmCtx) (h : WF ctx) (size : Nat)
    (hwrap : ctx.cap_size + 1 - ctx.head_idx < ctx.used_size)
    (hcr : ctx.ring_buff.getD ctx.cap_size 0 = 13)
    (hclean : ∀ i, i < ctx.cap_size → ctx.head_idx ≤ i →
      ctx.ring_buff.getD i 0 ≠ 13 ∧ ctx.ring_buff.getD i 0 ≠ 10)
    (hlf : ctx.ring_buff.getD 0 0 = 10)
    (hsize : ctx.cap_size + 1 - ctx.head_idx + 1 ≤ size) :
    bstm_readline ctx true size true =
      (BstmRes.OK,
       { ctx with
           head_idx := 1
           used_size := ctx.used_size - (ctx.cap_size + 1 - ctx.head_idx + 1)
           free_size := ctx.free_size + (ctx.cap_size + 1 - ctx.head_idx + 1) },
       (ctx.ring_buff.drop ctx.head_idx).take (ctx.cap_size + 1 - ctx.head_idx) ++ [10],
       some (ctx.cap_size + 1 - ctx.head_idx + 1)) := by
  obtain ⟨hcap, hring, hhead, htail, hused, hfree⟩ := h
  have hrlen : ctx.cap_size + 1 ≤ ctx.ring_buff.length := by
    rw [hring]; exact buffSizeOf_ge _ hcap
  have hseg_len :
      ((ctx.ring_buff.drop ctx.head_idx).take (ctx.cap_size + 1 - ctx.head_idx)).length =
        ctx.cap_size + 1 - ctx.head_idx :=
    drop_take_length _ _ _ (by omega)
  have hfind :
      find_eol ((ctx.ring_buff.drop ctx.head_idx).take (ctx.cap_size + 1 - ctx.head_idx)) =
        (Eol.CR, ctx.cap_size + 1 - ctx.head_idx) := by
    have hne :
        (ctx.ring_buff.drop ctx.head_idx).take (ctx.cap_size + 1 - ctx.head_idx) ≠ [] := by
      intro he
      rw [he] at hseg_len
      simp at hseg_len
      omega
    have hlast :
        ((ctx.ring_buff.drop ctx.head_idx).take (ctx.cap_size + 1 - ctx.head_idx)).getD
          (((ctx.ring_buff.drop ctx.head_idx).take
            (ctx.cap_size + 1 - ctx.head_idx)).length - 1) 0 = 13 := by
      rw [hseg_len, getD_eq, drop_take_getElem? _ _ _ _ (by omega),
        show ctx.head_idx + (ctx.cap_size + 1 - ctx.head_idx - 1) = ctx.cap_size
          from by omega, ← getD_eq]
      exact hcr
    have hcl : ∀ i, i < ((ctx.ring_buff.drop ctx.head_idx).take
        (ctx.cap_size + 1 - ctx.head_idx)).length - 1 →
        ((ctx.ring_buff.drop ctx.head_idx).take
          (ctx.cap_size + 1 - ctx.head_idx)).getD i 0 ≠ 13 ∧
        ((ctx.ring_buff.drop ctx.head_idx).take
          (ctx.cap_size + 1 - ctx.head_idx)).getD i 0 ≠ 10 := by
      intro i hi
      rw [hseg_len] at hi
      rw [getD_eq, drop_take_getElem? _ _ _ _ (by omega), ← getD_eq]
      exact hclean (ctx.head_idx + i) (by omega) (by omega)
    have hres := find_eol_aux_trailing_cr _ 0 hne hlast hcl
    rw [find_eol, hres, hseg_len, Nat.zero_add]
  simp only [bstm_readline,
    if_neg (show ¬((true : Bool) = false ∧ (true : Bool) = false) from by simp),
    if_neg (show ¬ size = 0 from by omega),
    if_neg (show ¬ ctx.used_size = 0 from by omega), if_true]
  rw [if_neg (show ¬ ctx.used_size ≤ ctx.cap_size + 1 - ctx.head_idx from by omega),
    hfind]
  rw [if_neg (show ¬ (Eol.CR, ctx.cap_size + 1 - ctx.head_idx).1 = Eol.NONE from by simp),
    if_pos (show (Eol.CR, ctx.cap_size + 1 - ctx.head_idx).1 = Eol.CR ∧
      (Eol.CR, ctx.cap_size + 1 - ctx.head_idx).2 = ctx.cap_size + 1 - ctx.head_idx
      from by simp),
    if_pos hlf,
    if_neg (show ¬ (Eol.CR, ctx.cap_size + 1 - ctx.head_idx).2 + 1 > size from by
      simp only []
      omega)]

theorem C6_crlf_spanning_wrap_witness :
    bstm_readline c6ctx true 3 true =
      (BstmRes.OK,
       { c6ctx with
           head_idx := 1
           used_size := c6ctx.used_size - (c6ctx.cap_size + 1 - c6ctx.head_idx + 1)
           free_size := c6ctx.free_size + (c6ctx.cap_size + 1 - c6ctx.head_idx + 1) },
       (c6ctx.ring_buff.drop c6ctx.head_idx).take (c6ctx.cap_size + 1 - c6ctx.head_idx) ++
         [10],
       some (c6ctx.cap_size + 1 - c6ctx.head_idx + 1)) :=
  C6_crlf_spanning_wrap c6ctx (by decide) 3 (by decide) (by decide) (by decide) (by decide)
    (by decide)

/-- C7: on `c7ctx` (2 buffered bytes), `bstm_peek` with the valid offset 1
and size `0xFFFFFFFF` returns `BSTM_OK`: the u32 sum `offs + size` wraps to
0, defeating the `used_size < offs + size` check, although mathematically
`offset + size > used` - the claimed `BSTM_ERR_NO_DAT` is not returned and
the copy runs far beyond the buffered data. -/
theorem C7_peek_size_overflow :
    c7ctx.used_size = 2 ∧
    (1 : Nat) < c7ctx.used_size ∧
    c7ctx.used_size < 1 + 4294967295 ∧
    (1 + 4294967295) % U32 = 0 ∧
    (bstm_peek c7ctx 1 4294967295).1 = BstmRes.OK := by
  decide

/-- C8: `bstm_peek` never mutates the context - neither `head_idx`,
`tail_idx`, `used_size` nor `free_size` - for any state and any
combination of arguments, valid or invalid. -/
theorem C8_peek_never_mutates (ctx : BstmCtx) (offs size : Nat) :
    (bstm_peek ctx offs size).2.1 = ctx :=
  bstm_peek_frame ctx offs size

/-- C9: `bstm_readline` with the discard sentinel (`data == NULL`) and a
provided `len` leaves the whole context untouched and copies nothing; it
returns the same result code and the same reported line length as the
destructive call would, and on success `*len` is written - so a subsequent
call observes the very same line. -/
theorem C9_readline_discard_peek_only (ctx : BstmCtx) (size : Nat) :
    (bstm_readline ctx false size true).2.1 = ctx ∧
    (bstm_readline ctx false size true).2.2.1 = [] ∧
    (bstm_readline ctx false size true).1 = (bstm_readline ctx true size true).1 ∧
    (bstm_readline ctx false size true).2.2.2 = (bstm_readline ctx true size true).2.2.2 ∧
    bstm_readline ((bstm_readline ctx false size true).2.1) false size true =
      bstm_readline ctx false size true ∧
    ((bstm_readline ctx false size true).1 = BstmRes.OK →
      ((bstm_readline ctx false size true).2.2.2).isSome = true) := by
  have hd := bstm_readline_discard ctx size
  refine ⟨by rw [hd], by rw [hd], by rw [hd], by rw [hd], by rw [hd]; dsimp only; exact hd, ?_⟩
  intro hok
  rw [hd] at hok
  dsimp only at hok
  rw [hd]
  exact bstm_readline_true_ok_len ctx size hok

theorem C9_readline_discard_peek_only_witness :
    (bstm_readline c9ctx false 10 true).2.1 = c9ctx ∧
    (bstm_readline c9ctx false 10 true).2.2.1 = [] ∧
    (bstm_readline c9ctx false 10 true).1 = (bstm_readline c9ctx true 10 true).1 ∧
    (bstm_readline c9ctx false 10 true).2.2.2 =
      (bstm_readline c9ctx true 10 true).2.2.2 ∧
    bstm_readline ((bstm_readline c9ctx false 10 true).2.1) false 10 true =
      bstm_readline c9ctx false 10 true ∧
    ((bstm_readline c9ctx false 10 true).2.2.2).isSome = true :=
  ⟨(C9_readline_discard_peek_only c9ctx 10).1,
   (C9_readline_discard_peek_only c9ctx 10).2.1,
   (C9_readline_discard_peek_only c9ctx 10).2.2.1,
   (C9_readline_discard_peek_only c9ctx 10).2.2.2.1,
   (C9_readline_discard_peek_only c9ctx 10).2.2.2.2.1,
   (C9_readline_discard_peek_only c9ctx 10).2.2.2.2.2 (by decide)⟩

/-- C10: on `c10ctx` (capacity 5, allocation length 8, 3 buffered bytes)
`bstm_peek` with offset 2 and size `0xFFFFFFFF` passes the overflowed
bound check and returns `BSTM_OK`; the requested copy spans
`size` bytes although the allocation holds 8, so the access is not
confined to the array - in the model the delivered bytes are cut off at
the array end (12 bytes instead of the requested `0xFFFFFFFF`). -/
theorem C10_peek_reads_out_of_bounds :
    c10ctx.ring_buff.length = 8 ∧
    c10ctx.used_size = 3 ∧
    (bstm_peek c10ctx 2 4294967295).1 = BstmRes.OK ∧
    (bstm_peek c10ctx 2 4294967295).2.2.length = 12 ∧
    ¬ (bstm_peek c10ctx 2 4294967295).2.2.length = 4294967295 := by
  decide

end Bytestream
